import Mathlib

/-!
Verification of the arrangement counter of `src/day_12/src/main.rs`
(Advent-of-Code-2023 day 12 solution).

The Rust code is shallowly embedded: each Rust item becomes a Lean
definition of the same name; machine integers (`usize`) become `Nat`,
with the `2 ^ 64` bound made explicit where overflow matters (integer
parsing); fallible operations return `Except`.
-/

set_option maxRecDepth 10000

/-- Embeds the Rust `enum State` with variants `Operational`, `Damaged`,
`Unknown` (cell symbols `.`, `#`, `?`). -/
inductive State : Type
  | operational : State
  | damaged : State
  | unknown : State
deriving DecidableEq

/-- Embeds the Rust `struct Row { states, groups, active }`. -/
structure Row : Type where
  states : List State
  groups : List Nat
  active : Option Nat
deriving DecidableEq

/-- Number of `unknown` cells in a list; used only as a termination
measure for the recursion of `arrangementsAux`. -/
def countU : List State → Nat
  | [] => 0
  | State.unknown :: r => countU r + 1
  | State.operational :: r => countU r
  | State.damaged :: r => countU r

/-- Embeds the loop body of `Row::arrangements` as a recursion over the
remaining cell list, the remaining group list and the `active` counter.
Each clause mirrors one arm of the Rust `match`:
`damaged` with `active = none` pops the next group and immediately
decrements it (`checked_sub` returning `None`, i.e. a zero group, yields
the early `return 0`); `damaged` with `some k` decrements `k`, and yields
0 when `k = 0`; `operational` closes a finished run (`some 0`), passes
through on `none`, and yields 0 mid-run; `unknown` is forced while a run
is open and otherwise sums the two single-cell resolutions of the
remaining suffix, exactly like the Rust clone-and-recurse; at the end of
the cells the Rust code strips leading zero groups and returns 1 iff no
group remains (the `active` counter is not inspected there). -/
def arrangementsAux : List State → List Nat → Option Nat → Nat
  | [], g, _ => if (g.dropWhile (fun x => x == 0)).isEmpty then 1 else 0
  | State.damaged :: rest, g, none =>
      match g with
      | [] => 0
      | h :: t => if h = 0 then 0 else arrangementsAux rest t (some (h - 1))
  | State.damaged :: rest, g, some k =>
      if k = 0 then 0 else arrangementsAux rest g (some (k - 1))
  | State.operational :: rest, g, none => arrangementsAux rest g none
  | State.operational :: rest, g, some k =>
      if k = 0 then arrangementsAux rest g none else 0
  | State.unknown :: rest, g, some k =>
      if k = 0 then arrangementsAux rest g none
      else arrangementsAux rest g (some (k - 1))
  | State.unknown :: rest, g, none =>
      arrangementsAux (State.operational :: rest) g none
        + arrangementsAux (State.damaged :: rest) g none
termination_by s _ _ => s.length + countU s
decreasing_by
  all_goals simp only [countU, List.length_cons]
  all_goals omega

/-- Embeds `Row::arrangements`. -/
def Row.arrangements (r : Row) : Nat :=
  arrangementsAux r.states r.groups r.active

/-- Models Rust's `Iterator::cycle` followed by `take k`: the auxiliary
carries the base list and the not-yet-consumed part of the current pass. -/
def cycleTakeAux (base : List α) : List α → Nat → List α
  | _, 0 => []
  | [], Nat.succ k =>
      match base with
      | [] => []
      | b :: bs => b :: cycleTakeAux base bs k
  | c :: cs, Nat.succ k => c :: cycleTakeAux base cs k

/-- The first `k` elements of the infinite repetition of `base` (empty
when `base` is empty), as produced by `base.iter().cycle().take(k)`. -/
def cycleTake (base : List α) (k : Nat) : List α :=
  cycleTakeAux base base k

/-- Embeds `Row::unfold`: cells chained with one `Unknown`, cycled, and
truncated to `(n + 1) * 5 - 1` cells; groups cycled to `m * 5` entries. -/
def Row.unfold (r : Row) : Row :=
  ⟨cycleTake (r.states ++ [State.unknown]) ((r.states.length + 1) * 5 - 1),
   cycleTake r.groups (r.groups.length * 5),
   none⟩

/-- Models `u8::is_ascii_whitespace`, the separator predicate of
`str::split_ascii_whitespace`. -/
def isAsciiWs (c : Char) : Bool :=
  c = ' ' || c = '\t' || c = '\n' || c = '\x0c' || c = '\r'

/-- Auxiliary for `splitWs`: accumulates the current (reversed) token. -/
def splitWsAux : List Char → List Char → List (List Char)
  | [], acc => if acc.isEmpty then [] else [acc.reverse]
  | c :: cs, acc =>
      if isAsciiWs c then
        if acc.isEmpty then splitWsAux cs [] else acc.reverse :: splitWsAux cs []
      else splitWsAux cs (c :: acc)

/-- Models `str::split_ascii_whitespace`: maximal runs of
non-ASCII-whitespace characters, with no empty tokens. -/
def splitWs (cs : List Char) : List (List Char) :=
  splitWsAux cs []

/-- Auxiliary for `splitComma`: accumulates the current (reversed) piece. -/
def splitCommaAux : List Char → List Char → List (List Char)
  | [], acc => [acc.reverse]
  | c :: cs, acc =>
      if c = ',' then acc.reverse :: splitCommaAux cs []
      else splitCommaAux cs (c :: acc)

/-- Models `str::split(',')`: the pieces between commas, keeping empty
pieces (a string with no comma is one piece). -/
def splitComma (cs : List Char) : List (List Char) :=
  splitCommaAux cs []

/-- Models `char::is_whitespace` (the Unicode `White_Space` property),
used by `str::trim`. -/
def isUnicodeWs (c : Char) : Bool :=
  c.toNat = 0x9 || c.toNat = 0xA || c.toNat = 0xB || c.toNat = 0xC ||
  c.toNat = 0xD || c.toNat = 0x20 || c.toNat = 0x85 || c.toNat = 0xA0 ||
  c.toNat = 0x1680 || (0x2000 ≤ c.toNat && c.toNat ≤ 0x200A) ||
  c.toNat = 0x2028 || c.toNat = 0x2029 || c.toNat = 0x202F ||
  c.toNat = 0x205F || c.toNat = 0x3000

/-- Models `str::trim`: removes leading and trailing Unicode whitespace. -/
def rustTrim (cs : List Char) : List Char :=
  ((cs.dropWhile isUnicodeWs).reverse.dropWhile isUnicodeWs).reverse

/-- Strips one optional leading `'+'`, as `usize::from_str` does. -/
def stripPlus : List Char → List Char
  | '+' :: rest => rest
  | cs => cs

/-- ASCII decimal digit predicate. -/
def isDigitCh (c : Char) : Bool :=
  '0' ≤ c && c ≤ '9'

/-- Numeric value of a digit string, most significant digit first. -/
def digitsVal (cs : List Char) : Nat :=
  cs.foldl (fun a c => 10 * a + (c.toNat - '0'.toNat)) 0

/-- Models the acceptance condition of `usize::from_str`: after an
optional leading `'+'`, one or more ASCII decimal digits whose value fits
in the 64-bit `usize`. -/
def validUsize (cs : List Char) : Bool :=
  !(stripPlus cs).isEmpty && (stripPlus cs).all isDigitCh
    && digitsVal (stripPlus cs) < 2 ^ 64

/-- Models `usize::from_str` (`token.parse::<usize>()`). -/
def parseUsize (cs : List Char) : Except Unit Nat :=
  if validUsize cs then Except.ok (digitsVal (stripPlus cs)) else Except.error ()

/-- Embeds `State::try_from(char)`. -/
def charToState (c : Char) : Except String State :=
  if c = '.' then Except.ok State.operational
  else if c = '#' then Except.ok State.damaged
  else if c = '?' then Except.ok State.unknown
  else Except.error ("Unrecognized symbol")

/-- Embeds `chars().map(try_into).collect::<Result<_, _>>()`:
short-circuits on the first unrecognized character. -/
def parseStates : List Char → Except String (List State)
  | [] => Except.ok []
  | c :: cs =>
      match charToState c with
      | Except.error e => Except.error e
      | Except.ok st =>
          match parseStates cs with
          | Except.error e => Except.error e
          | Except.ok sts => Except.ok (st :: sts)

/-- Embeds `split(',').map(|token| token.trim().parse()).collect`:
short-circuits on the first token `usize::from_str` rejects. -/
def parseGroupsGo : List (List Char) → Except Unit (List Nat)
  | [] => Except.ok []
  | t :: ts =>
      match parseUsize (rustTrim t) with
      | Except.error e => Except.error e
      | Except.ok v =>
          match parseGroupsGo ts with
          | Except.error e => Except.error e
          | Except.ok vs => Except.ok (v :: vs)

/-- Embeds the groups field parser including the
`map_err(|_| "Could not parse groups")`. -/
def parseGroups (cs : List Char) : Except String (List Nat) :=
  match parseGroupsGo (splitComma cs) with
  | Except.error _ => Except.error ("Could not parse groups")
  | Except.ok vs => Except.ok vs

/-- Embeds `impl FromStr for Row` on the character list of the line:
first whitespace token to `states`, second to `groups`, `active = None`;
a missing token is `"Unexpected End of Stream"`. -/
def rowFromChars (cs : List Char) : Except String Row :=
  match splitWs cs with
  | [] => Except.error ("Unexpected End of Stream")
  | t0 :: rest =>
      match parseStates t0 with
      | Except.error e => Except.error e
      | Except.ok states =>
          match rest with
          | [] => Except.error ("Unexpected End of Stream")
          | t1 :: _ =>
              match parseGroups t1 with
              | Except.error e => Except.error e
              | Except.ok groups => Except.ok ⟨states, groups, none⟩

/-- Embeds `line.parse::<Row>()`. -/
def rowFromStr (s : String) : Except String Row :=
  rowFromChars s.data

/-- True exactly on the `Err` constructor of an `Except`. -/
def exceptIsErr : Except ε α → Bool
  | Except.error _ => true
  | Except.ok _ => false

/-- Auxiliary for `rustLines`: splits on every newline character. -/
def splitNlAux : List Char → List Char → List (List Char)
  | [], acc => [acc.reverse]
  | c :: cs, acc =>
      if c = '\n' then acc.reverse :: splitNlAux cs []
      else splitNlAux cs (c :: acc)

/-- Drops a single trailing carriage return, as `str::lines` does. -/
def dropCr (cs : List Char) : List Char :=
  if cs.getLast? = some '\r' then cs.dropLast else cs

/-- Models `str::lines`: split on `'\n'`, drop a final empty piece, and
strip one trailing `'\r'` from each line. -/
def rustLines (cs : List Char) : List (List Char) :=
  let parts := splitNlAux cs []
  (if parts.getLast? = some [] then parts.dropLast else parts).map dropCr

/-- Embeds `input.lines().map(|line| line.parse()).collect::<Result<Vec<Row>, _>>()`. -/
def parseAll : List (List Char) → Except String (List Row)
  | [] => Except.ok []
  | l :: ls =>
      match rowFromChars l with
      | Except.error e => Except.error e
      | Except.ok r =>
          match parseAll ls with
          | Except.error e => Except.error e
          | Except.ok rs => Except.ok (r :: rs)

/-- Embeds `solve_part_1`: parse every line, then sum `arrangements`
over the rows (the rayon parallel iteration is just this sum). -/
def solve_part_1 (input : String) : Except String Nat :=
  match parseAll (rustLines input.data) with
  | Except.error e => Except.error e
  | Except.ok rows => Except.ok ((rows.map Row.arrangements).sum)

/-- Embeds `solve_part_2`: like part 1 but each row is unfolded first. -/
def solve_part_2 (input : String) : Except String Nat :=
  match parseAll (rustLines input.data) with
  | Except.error e => Except.error e
  | Except.ok rows => Except.ok ((rows.map (fun r => r.unfold.arrangements)).sum)

/-- The six-line example input of the repository's tests. -/
def exInput : String :=
  "???.### 1,1,3\n.??..??...?##. 1,1,3\n?#?#?#?#?#?#?#? 1,3,1,6\n????.#...#... 4,1,1\n????.######..#####. 1,6,5\n?###???????? 3,2,1"

/-- Spec-side definition (the reference semantics the code is compared
against): all resolutions of the unknown cells, each cell sequence fully
resolved to `operational`/`damaged`. -/
def resolutions : List State → List (List State)
  | [] => [[]]
  | State.operational :: rest =>
      (resolutions rest).map (fun l => State.operational :: l)
  | State.damaged :: rest =>
      (resolutions rest).map (fun l => State.damaged :: l)
  | State.unknown :: rest =>
      (resolutions rest).map (fun l => State.operational :: l)
        ++ (resolutions rest).map (fun l => State.damaged :: l)

/-- Auxiliary for `runLengths`: `k` is the length of the damaged run
currently being read. -/
def runLengthsAux : Nat → List State → List Nat
  | k, [] => if k = 0 then [] else [k]
  | k, State.damaged :: rest => runLengthsAux (k + 1) rest
  | k, State.operational :: rest =>
      if k = 0 then runLengthsAux 0 rest else k :: runLengthsAux 0 rest
  | k, State.unknown :: rest =>
      if k = 0 then runLengthsAux 0 rest else k :: runLengthsAux 0 rest

/-- Spec-side definition: the lengths of the maximal `damaged` runs of a
cell sequence, read left to right. -/
def runLengths (l : List State) : List Nat :=
  runLengthsAux 0 l

/-- Spec-side definition of the arrangement count: the number of
resolutions whose maximal damaged runs equal the group list in order. -/
def specCount (s : List State) (g : List Nat) : Nat :=
  ((resolutions s).filter (fun res => runLengths res == g)).length

/-- Largest entry of a group list (0 for the empty list). -/
def maxG (g : List Nat) : Nat :=
  g.foldr Nat.max 0

/-- Table lookup with default 0: entry `i` of row `j`. -/
def get2 (t : List (List Nat)) (j i : Nat) : Nat :=
  (t.getD j []).getD i 0

/-- Base table of the tabulated counter: the value of `arrangementsAux`
at the end of the cells, for every suffix `g.drop j` of the groups (the
active-counter column is irrelevant there, exactly as in the code). -/
def dpBase (g : List Nat) (wdt m : Nat) : List (List Nat) :=
  (List.range (m + 1)).map (fun j =>
    (List.range wdt).map (fun _ =>
      if ((g.drop j).dropWhile (fun x => x == 0)).isEmpty then 1 else 0))

/-- One entry of the tabulated counter: the transition of
`arrangementsAux` on cell `c`, at group suffix `g.drop j` and active
counter encoded by `i` (`0` is `none`, `k + 1` is `some k`), reading the
values for the remaining cells from `prev`. -/
def stepEntry (g : List Nat) (prev : List (List Nat)) (c : State) (j i : Nat) : Nat :=
  match c, i with
  | State.operational, 0 => get2 prev j 0
  | State.operational, Nat.succ k => if k = 0 then get2 prev j 0 else 0
  | State.damaged, 0 =>
      match g.drop j with
      | [] => 0
      | h :: _ => if h = 0 then 0 else get2 prev (j + 1) h
  | State.damaged, Nat.succ k => if k = 0 then 0 else get2 prev j k
  | State.unknown, Nat.succ k => if k = 0 then get2 prev j 0 else get2 prev j k
  | State.unknown, 0 =>
      get2 prev j 0 +
        match g.drop j with
        | [] => 0
        | h :: _ => if h = 0 then 0 else get2 prev (j + 1) h

/-- One layer of the tabulated counter: the table for `c :: rest` from
the table for `rest`. -/
def dpStep (g : List Nat) (wdt m : Nat) (c : State) (prev : List (List Nat)) : List (List Nat) :=
  (List.range (m + 1)).map (fun j =>
    (List.range wdt).map (fun i => stepEntry g prev c j i))

/-- The full table of `arrangementsAux` values for all suffix states. -/
def dpTable (s : List State) (g : List Nat) (wdt m : Nat) : List (List Nat) :=
  s.foldr (dpStep g wdt m) (dpBase g wdt m)

/-- Tabulated arrangement counter: provably equal to `arrangementsAux`
with `active = none`, and evaluable in polynomial time (it is the
memoized algorithm the specification asks for). -/
def dpCount (s : List State) (g : List Nat) : Nat :=
  get2 (dpTable s g (maxG g + 1) g.length) 0 0

/-- Decodes an active-counter column index of the table. -/
def decodeA : Nat → Option Nat
  | 0 => none
  | Nat.succ k => some k

/-- Counts the recursive invocations of `Row::arrangements`: the same
recursion as `arrangementsAux`, but every terminating scan contributes 1
and the unknown-cell branch adds its two sub-invocation counts. -/
def invAux : List State → List Nat → Option Nat → Nat
  | [], _, _ => 1
  | State.damaged :: rest, g, none =>
      match g with
      | [] => 1
      | h :: t => if h = 0 then 1 else invAux rest t (some (h - 1))
  | State.damaged :: rest, g, some k =>
      if k = 0 then 1 else invAux rest g (some (k - 1))
  | State.operational :: rest, g, none => invAux rest g none
  | State.operational :: rest, g, some k =>
      if k = 0 then invAux rest g none else 1
  | State.unknown :: rest, g, some k =>
      if k = 0 then invAux rest g none
      else invAux rest g (some (k - 1))
  | State.unknown :: rest, g, none =>
      1 + invAux (State.operational :: rest) g none
        + invAux (State.damaged :: rest) g none
termination_by s _ _ => s.length + countU s
decreasing_by
  all_goals simp only [countU, List.length_cons]
  all_goals omega

/-- The failure condition of claim C3 as stated: missing second field,
bad state character, or a run-length token that is not (the decimal
representation of) a positive integer. -/
def c3StatedCond (s : String) : Bool :=
  match splitWs s.data with
  | [] => true
  | [_] => true
  | t0 :: t1 :: _ =>
      t0.any (fun c => !(c = '.' || c = '#' || c = '?'))
        || (splitComma t1).any (fun t =>
              !(!t.isEmpty && t.all isDigitCh && decide (0 < digitsVal t)))

/-- The corrected failure condition: missing second field, bad state
character, or a run-length token that `usize` parsing rejects after
trimming. -/
def c3AmendedCond (s : String) : Bool :=
  match splitWs s.data with
  | [] => true
  | [_] => true
  | t0 :: t1 :: _ =>
      t0.any (fun c => !(c = '.' || c = '#' || c = '?'))
        || (splitComma t1).any (fun t => !validUsize (rustTrim t))

/-- The input line exhibiting the gap between the stated and the actual
parse failure condition: its run-length token is `0`. -/
def exC3 : String := ". 0"

theorem getD_range_map (f : Nat → α) (d : α) (n j : Nat) (h : j < n) :
    ((List.range n).map f).getD j d = f j := by
  simp [List.getD_eq_getElem?_getD, List.getElem?_map, List.getElem?_range h]

theorem maxG_cons (a : Nat) (t : List Nat) : maxG (a :: t) = Nat.max a (maxG t) := rfl

theorem mem_le_maxG : ∀ (g : List Nat), ∀ x ∈ g, x ≤ maxG g := by
  intro g
  induction g with
  | nil => simp
  | cons a t ih =>
    intro x hx
    rw [maxG_cons]
    rcases List.mem_cons.mp hx with rfl | hx
    · exact Nat.le_max_left _ _
    · exact Nat.le_trans (ih x hx) (Nat.le_max_right _ _)

theorem drop_cons_succ {g : List Nat} {j : Nat} {h : Nat} {t : List Nat}
    (hd : g.drop j = h :: t) : g.drop (j + 1) = t := by
  have := List.tail_drop g j
  rw [hd] at this
  exact this.symm

theorem drop_cons_lt {g : List Nat} {j : Nat} {h : Nat} {t : List Nat}
    (hd : g.drop j = h :: t) : j < g.length := by
  by_contra hc
  rw [List.drop_eq_nil_of_le (by omega)] at hd
  cases hd

theorem drop_cons_le_maxG {g : List Nat} {j : Nat} {h : Nat} {t : List Nat}
    (hd : g.drop j = h :: t) : h ≤ maxG g := by
  refine mem_le_maxG g h (List.drop_subset j g ?_)
  rw [hd]
  exact List.mem_cons_self h t

theorem dp_inv (g : List Nat) (s : List State) :
    ∀ j i, j ≤ g.length → i < maxG g + 1 →
      get2 (dpTable s g (maxG g + 1) g.length) j i
        = arrangementsAux s (g.drop j) (decodeA i) := by
  induction s with
  | nil =>
    intro j i hj hi
    show get2 (dpBase g (maxG g + 1) g.length) j i = _
    rw [get2, dpBase, getD_range_map _ _ _ _ (by omega), getD_range_map _ _ _ _ hi]
    simp [arrangementsAux]
  | cons c rest ih =>
    intro j i hj hi
    have hstep : get2 (dpTable (c :: rest) g (maxG g + 1) g.length) j i
        = stepEntry g (dpTable rest g (maxG g + 1) g.length) c j i := by
      show get2 (dpStep g (maxG g + 1) g.length c (dpTable rest g (maxG g + 1) g.length)) j i = _
      rw [get2, dpStep, getD_range_map _ _ _ _ (by omega), getD_range_map _ _ _ _ hi]
    rw [hstep]
    cases c with
    | operational =>
      cases i with
      | zero =>
        simp only [stepEntry, decodeA, arrangementsAux]
        exact ih j 0 hj (by omega)
      | succ k =>
        simp only [stepEntry, decodeA, arrangementsAux]
        by_cases hk : k = 0
        · simp only [hk, if_pos rfl]
          exact ih j 0 hj (by omega)
        · simp [hk]
    | damaged =>
      cases i with
      | zero =>
        simp only [stepEntry, decodeA]
        cases hd : g.drop j with
        | nil => simp [arrangementsAux]
        | cons h t =>
          by_cases hh : h = 0
          · simp [arrangementsAux, hh]
          · simp only [arrangementsAux, hh, if_neg hh]
            have hj1 : j + 1 ≤ g.length := drop_cons_lt hd
            have hhm : h < maxG g + 1 := by
              have := drop_cons_le_maxG hd
              omega
            have hent := ih (j + 1) h hj1 hhm
            rw [drop_cons_succ hd] at hent
            rw [hent]
            cases h with
            | zero => exact absurd rfl hh
            | succ h2 => simp [decodeA]
      | succ k =>
        simp only [stepEntry, decodeA, arrangementsAux]
        by_cases hk : k = 0
        · simp [hk]
        · simp only [hk, if_neg hk]
          have hent := ih j k hj (by omega)
          rw [hent]
          cases k with
          | zero => exact absurd rfl hk
          | succ k2 => simp [decodeA]
    | unknown =>
      cases i with
      | zero =>
        have h0 := ih j 0 hj (by omega)
        simp only [decodeA] at h0 ⊢
        rw [show arrangementsAux (State.unknown :: rest) (g.drop j) none
              = arrangementsAux (State.operational :: rest) (g.drop j) none
                + arrangementsAux (State.damaged :: rest) (g.drop j) none
            from by simp [arrangementsAux]]
        simp only [stepEntry]
        rw [show arrangementsAux (State.operational :: rest) (g.drop j) none
              = arrangementsAux rest (g.drop j) none from by simp [arrangementsAux]]
        rw [← h0]
        congr 1
        cases hd : g.drop j with
        | nil => simp [arrangementsAux]
        | cons h t =>
          by_cases hh : h = 0
          · simp [arrangementsAux, hh]
          · simp only [arrangementsAux, hh, if_neg hh]
            have hj1 : j + 1 ≤ g.length := drop_cons_lt hd
            have hhm : h < maxG g + 1 := by
              have := drop_cons_le_maxG hd
              omega
            have hent := ih (j + 1) h hj1 hhm
            rw [drop_cons_succ hd] at hent
            rw [hent]
            cases h with
            | zero => exact absurd rfl hh
            | succ h2 => simp [decodeA]
      | succ k =>
        simp only [stepEntry, decodeA, arrangementsAux]
        by_cases hk : k = 0
        · simp only [hk, if_pos rfl]
          exact ih j 0 hj (by omega)
        · simp only [hk, if_neg hk]
          have := ih j k hj (by omega)
          rw [this]
          cases k with
          | zero => exact absurd rfl hk
          | succ k2 => simp [decodeA]

theorem arrangementsAux_eq_dp (s : List State) (g : List Nat) :
    arrangementsAux s g none = dpCount s g := by
  have h := dp_inv g s 0 0 (by omega) (by omega)
  simp only [List.drop_zero, decodeA] at h
  exact h.symm

theorem rowFromChars_active_none (l : List Char) (r : Row)
    (h : rowFromChars l = Except.ok r) : r.active = none := by
  unfold rowFromChars at h
  cases hs : splitWs l with
  | nil => simp only [hs] at h; cases h
  | cons t0 rest =>
    simp only [hs] at h
    cases hp : parseStates t0 with
    | error e => simp only [hp] at h; cases h
    | ok states =>
      simp only [hp] at h
      cases rest with
      | nil => simp only [] at h; cases h
      | cons t1 more =>
        cases hg : parseGroups t1 with
        | error e => simp only [hg] at h; cases h
        | ok groups =>
          simp only [hg] at h
          cases h
          rfl

theorem parseAll_active_none :
    ∀ (ls : List (List Char)) (rows : List Row),
      parseAll ls = Except.ok rows → ∀ r ∈ rows, r.active = none := by
  intro ls
  induction ls with
  | nil =>
    intro rows h r hr
    cases h
    cases hr
  | cons l ls ih =>
    intro rows h r hr
    unfold parseAll at h
    cases hl : rowFromChars l with
    | error e => rw [hl] at h; cases h
    | ok r0 =>
      rw [hl] at h
      cases hrest : parseAll ls with
      | error e => rw [hrest] at h; cases h
      | ok rs =>
        rw [hrest] at h
        cases h
        rcases List.mem_cons.mp hr with rfl | hr
        · exact rowFromChars_active_none l r hl
        · exact ih rs hrest r hr

theorem arrangements_dp (r : Row) (h : r.active = none) :
    r.arrangements = dpCount r.states r.groups := by
  rw [Row.arrangements, h]
  exact arrangementsAux_eq_dp r.states r.groups

theorem unfold_active (r : Row) : r.unfold.active = none := rfl

theorem solve1_eq_dp (s : String) :
    solve_part_1 s =
      match parseAll (rustLines s.data) with
      | Except.error e => Except.error e
      | Except.ok rows =>
          Except.ok ((rows.map (fun r => dpCount r.states r.groups)).sum) := by
  unfold solve_part_1
  cases hp : parseAll (rustLines s.data) with
  | error e => rfl
  | ok rows =>
    have hact := parseAll_active_none _ _ hp
    simp only []
    congr 2
    exact List.map_congr_left (fun r hr => arrangements_dp r (hact r hr))

theorem solve2_eq_dp (s : String) :
    solve_part_2 s =
      match parseAll (rustLines s.data) with
      | Except.error e => Except.error e
      | Except.ok rows =>
          Except.ok ((rows.map (fun r => dpCount r.unfold.states r.unfold.groups)).sum) := by
  unfold solve_part_2
  cases hp : parseAll (rustLines s.data) with
  | error e => rfl
  | ok rows =>
    simp only []
    congr 2
    exact List.map_congr_left (fun r _ => arrangements_dp r.unfold (unfold_active r))

/-- C6: on the six-line example input, the sum of the arrangement counts
of the parsed rows is `Ok 21`, and the sum over the unfolded rows is
`Ok 525152`. -/
theorem c6_example_totals :
    solve_part_1 exInput = Except.ok 21 ∧ solve_part_2 exInput = Except.ok 525152 := by
  constructor
  · rw [solve1_eq_dp]
    rfl
  · rw [solve2_eq_dp]
    rfl

theorem aux_split (pre post : List State) :
    ∀ (g : List Nat) (a : Option Nat),
      arrangementsAux (pre ++ State.unknown :: post) g a
        = arrangementsAux (pre ++ State.operational :: post) g a
          + arrangementsAux (pre ++ State.damaged :: post) g a := by
  induction pre with
  | nil =>
    intro g a
    cases a with
    | none => simp [arrangementsAux]
    | some k =>
      cases k with
      | zero => simp [arrangementsAux]
      | succ k2 => simp [arrangementsAux]
  | cons c pre ih =>
    intro g a
    simp only [List.cons_append]
    cases c with
    | operational =>
      cases a with
      | none =>
        simp only [arrangementsAux]
        exact ih g none
      | some k =>
        cases k with
        | zero =>
          simp only [arrangementsAux, if_pos rfl]
          exact ih g none
        | succ k2 => simp [arrangementsAux]
    | damaged =>
      cases a with
      | none =>
        cases g with
        | nil => simp [arrangementsAux]
        | cons h t =>
          by_cases hh : h = 0
          · simp [arrangementsAux, hh]
          · simp only [arrangementsAux, if_neg hh]
            exact ih t (some (h - 1))
      | some k =>
        cases k with
        | zero => simp [arrangementsAux]
        | succ k2 =>
          have hk : ¬ (k2 + 1 = 0) := by omega
          simp only [arrangementsAux, if_neg hk]
          exact ih g (some (k2 + 1 - 1))
    | unknown =>
      cases a with
      | some k =>
        cases k with
        | zero =>
          simp only [arrangementsAux, if_pos rfl]
          exact ih g none
        | succ k2 =>
          have hk : ¬ (k2 + 1 = 0) := by omega
          simp only [arrangementsAux, if_neg hk]
          exact ih g (some (k2 + 1 - 1))
      | none =>
        have hbr : ∀ (l : List State),
            arrangementsAux (State.unknown :: l) g none
              = arrangementsAux (State.operational :: l) g none
                + arrangementsAux (State.damaged :: l) g none := by
          intro l
          simp [arrangementsAux]
        rw [hbr, hbr, hbr]
        have hop : ∀ (l : List State),
            arrangementsAux (State.operational :: l) g none = arrangementsAux l g none := by
          intro l
          simp [arrangementsAux]
        rw [hop, hop, hop, ih g none]
        cases g with
        | nil => simp [arrangementsAux]
        | cons h t =>
          by_cases hh : h = 0
          · simp [arrangementsAux, hh]
          · have hd : ∀ (l : List State),
                arrangementsAux (State.damaged :: l) (h :: t) none
                  = arrangementsAux l t (some (h - 1)) := by
              intro l
              simp [arrangementsAux, hh]
            rw [hd, hd, hd, ih t (some (h - 1))]
            omega

theorem self_eq_take_cons_drop (l : List State) (p : Nat) (h : p < l.length) :
    l = l.take p ++ l[p] :: l.drop (p + 1) := by
  have h1 := List.take_append_drop p l
  rw [← List.getElem_cons_drop l p h] at h1
  exact h1.symm

/-- C9: resolving an Unknown cell is an exact additive decomposition: the
count of the Row equals the count with that cell set to Clear plus the
count with it set to Filled. -/
theorem c9_unknown_additive (r : Row) (p : Nat) (h : p < r.states.length)
    (hu : r.states[p] = State.unknown) :
    r.arrangements
      = Row.arrangements ⟨r.states.set p State.operational, r.groups, r.active⟩
        + Row.arrangements ⟨r.states.set p State.damaged, r.groups, r.active⟩ := by
  show arrangementsAux r.states r.groups r.active
      = arrangementsAux (r.states.set p State.operational) r.groups r.active
        + arrangementsAux (r.states.set p State.damaged) r.groups r.active
  rw [List.set_eq_take_cons_drop _ h, List.set_eq_take_cons_drop _ h]
  conv_lhs => rw [self_eq_take_cons_drop r.states p h]
  rw [hu]
  exact aux_split (r.states.take p) (r.states.drop (p + 1)) r.groups r.active

theorem c9_witness :
    Row.arrangements ⟨[State.unknown], [], none⟩
      = Row.arrangements ⟨[State.unknown].set 0 State.operational, [], none⟩
        + Row.arrangements ⟨[State.unknown].set 0 State.damaged, [], none⟩ :=
  c9_unknown_additive ⟨[State.unknown], [], none⟩ 0 (by decide) (by decide)

/-- C5: replacing a Filled or Clear cell by Unknown never decreases the
arrangement count. -/
theorem c5_relax_monotone (r : Row) (p : Nat) (h : p < r.states.length)
    (hc : r.states[p] ≠ State.unknown) :
    r.arrangements ≤ Row.arrangements ⟨r.states.set p State.unknown, r.groups, r.active⟩ := by
  show arrangementsAux r.states r.groups r.active
      ≤ arrangementsAux (r.states.set p State.unknown) r.groups r.active
  rw [List.set_eq_take_cons_drop _ h]
  rw [aux_split (r.states.take p) (r.states.drop (p + 1)) r.groups r.active]
  conv_lhs => rw [self_eq_take_cons_drop r.states p h]
  cases hcc : r.states[p] with
  | unknown => exact absurd hcc hc
  | operational => exact Nat.le_add_right _ _
  | damaged => exact Nat.le_add_left _ _

theorem c5_witness :
    Row.arrangements ⟨[State.damaged], [1], none⟩
      ≤ Row.arrangements ⟨[State.damaged].set 0 State.unknown, [1], none⟩ :=
  c5_relax_monotone ⟨[State.damaged], [1], none⟩ 0 (by decide) (by decide)

theorem cycleTakeAux_restart (base : List α) (k : Nat) :
    cycleTakeAux base [] k = cycleTakeAux base base k := by
  cases k with
  | zero => cases base <;> rfl
  | succ k2 => cases base <;> rfl

theorem cycleTakeAux_chunk (base : List α) :
    ∀ (cur : List α) (k : Nat),
      cycleTakeAux base cur (cur.length + k) = cur ++ cycleTakeAux base base k := by
  intro cur
  induction cur with
  | nil =>
    intro k
    simpa using cycleTakeAux_restart base k
  | cons c cs ih =>
    intro k
    have hlen : (c :: cs).length + k = (cs.length + k) + 1 := by
      simp [List.length_cons]
      omega
    rw [hlen]
    show c :: cycleTakeAux base cs (cs.length + k) = (c :: cs) ++ cycleTakeAux base base k
    rw [ih k]
    rfl

theorem cycleTakeAux_small (base : List α) :
    ∀ (cur : List α) (k : Nat), k ≤ cur.length →
      cycleTakeAux base cur k = cur.take k := by
  intro cur
  induction cur with
  | nil =>
    intro k hk
    have : k = 0 := by simpa using hk
    subst this
    rfl
  | cons c cs ih =>
    intro k hk
    cases k with
    | zero => rfl
    | succ k2 =>
      show c :: cycleTakeAux base cs k2 = (c :: cs).take (k2 + 1)
      rw [List.take_succ_cons, ih k2 (by simpa using hk)]

theorem cycleTake_chunk (l : List α) (k : Nat) :
    cycleTake l (l.length + k) = l ++ cycleTake l k :=
  cycleTakeAux_chunk l l k

theorem cycleTake_small (l : List α) (k : Nat) (h : k ≤ l.length) :
    cycleTake l k = l.take k :=
  cycleTakeAux_small l l k h

/-- C4: unfolding produces exactly 5 copies of the cells joined by single
Unknown separators (length `5 * N + 4`) and 5 concatenated copies of the
groups (length `5 * M`). -/
theorem c4_unfold_shape (r : Row) :
    r.unfold.states
        = r.states ++ [State.unknown] ++ r.states ++ [State.unknown] ++ r.states
            ++ [State.unknown] ++ r.states ++ [State.unknown] ++ r.states
      ∧ r.unfold.groups = r.groups ++ r.groups ++ r.groups ++ r.groups ++ r.groups
      ∧ r.unfold.states.length = 5 * r.states.length + 4
      ∧ r.unfold.groups.length = 5 * r.groups.length := by
  have hb : (r.states ++ [State.unknown]).length = r.states.length + 1 := by
    simp
  have hstates : r.unfold.states
      = r.states ++ [State.unknown] ++ r.states ++ [State.unknown] ++ r.states
          ++ [State.unknown] ++ r.states ++ [State.unknown] ++ r.states := by
    show cycleTake (r.states ++ [State.unknown]) ((r.states.length + 1) * 5 - 1) = _
    have h5 : (r.states.length + 1) * 5 - 1
        = (r.states ++ [State.unknown]).length + ((r.states ++ [State.unknown]).length
            + ((r.states ++ [State.unknown]).length + ((r.states ++ [State.unknown]).length
                + r.states.length))) := by
      rw [hb]
      omega
    rw [h5, cycleTake_chunk, cycleTake_chunk, cycleTake_chunk, cycleTake_chunk,
        cycleTake_small _ _ (by rw [hb]; omega),
        List.take_left']
    · simp [List.append_assoc]
    · rfl
  have hgroups : r.unfold.groups
      = r.groups ++ r.groups ++ r.groups ++ r.groups ++ r.groups := by
    show cycleTake r.groups (r.groups.length * 5) = _
    have h5 : r.groups.length * 5
        = r.groups.length + (r.groups.length + (r.groups.length
            + (r.groups.length + r.groups.length))) := by
      omega
    rw [h5, cycleTake_chunk, cycleTake_chunk, cycleTake_chunk, cycleTake_chunk,
        cycleTake_small _ _ (Nat.le_refl _), List.take_length]
    simp [List.append_assoc]
  refine ⟨hstates, hgroups, ?_, ?_⟩
  · rw [hstates]
    simp [List.length_append]
    omega
  · rw [hgroups]
    simp [List.length_append]
    omega

theorem c4_witness :
    (Row.unfold ⟨[State.damaged], [2], none⟩).states
        = [State.damaged] ++ [State.unknown] ++ [State.damaged] ++ [State.unknown]
            ++ [State.damaged] ++ [State.unknown] ++ [State.damaged] ++ [State.unknown]
            ++ [State.damaged]
      ∧ (Row.unfold ⟨[State.damaged], [2], none⟩).groups = [2] ++ [2] ++ [2] ++ [2] ++ [2]
      ∧ (Row.unfold ⟨[State.damaged], [2], none⟩).states.length = 5 * [State.damaged].length + 4
      ∧ (Row.unfold ⟨[State.damaged], [2], none⟩).groups.length = 5 * ([2] : List Nat).length :=
  c4_unfold_shape ⟨[State.damaged], [2], none⟩

theorem aux_le_one :
    ∀ (s : List State), (∀ c ∈ s, c ≠ State.unknown) →
      ∀ (g : List Nat) (a : Option Nat), arrangementsAux s g a ≤ 1 := by
  intro s
  induction s with
  | nil =>
    intro _ g a
    simp only [arrangementsAux]
    split <;> omega
  | cons c rest ih =>
    intro hall g a
    have hrest : ∀ x ∈ rest, x ≠ State.unknown :=
      fun x hx => hall x (List.mem_cons_of_mem _ hx)
    cases c with
    | unknown => exact absurd rfl (hall _ (List.mem_cons_self _ _))
    | operational =>
      cases a with
      | none =>
        simp only [arrangementsAux]
        exact ih hrest g none
      | some k =>
        simp only [arrangementsAux]
        split
        · exact ih hrest g none
        · omega
    | damaged =>
      cases a with
      | none =>
        cases g with
        | nil => simp [arrangementsAux]
        | cons h t =>
          simp only [arrangementsAux]
          split
          · omega
          · exact ih hrest t _
      | some k =>
        simp only [arrangementsAux]
        split
        · omega
        · exact ih hrest g _

/-- C8: a Row without Unknown cells has an arrangement count of 0 or 1. -/
theorem c8_no_unknown_le_one (r : Row) (h : ∀ c ∈ r.states, c ≠ State.unknown) :
    r.arrangements = 0 ∨ r.arrangements = 1 := by
  have hle := aux_le_one r.states h r.groups r.active
  have : r.arrangements = arrangementsAux r.states r.groups r.active := rfl
  omega

theorem c8_witness :
    Row.arrangements ⟨[State.damaged], [1], none⟩ = 0
      ∨ Row.arrangements ⟨[State.damaged], [1], none⟩ = 1 :=
  c8_no_unknown_le_one ⟨[State.damaged], [1], none⟩ (by decide)

theorem charToState_err (c : Char) :
    exceptIsErr (charToState c) = !(c = '.' || c = '#' || c = '?') := by
  unfold charToState
  by_cases h1 : c = '.' <;> by_cases h2 : c = '#' <;> by_cases h3 : c = '?' <;>
    simp [h1, h2, h3, exceptIsErr]

theorem parseStates_err (cs : List Char) :
    exceptIsErr (parseStates cs) = cs.any (fun c => !(c = '.' || c = '#' || c = '?')) := by
  induction cs with
  | nil => rfl
  | cons c cs ih =>
    have hgood := charToState_err c
    simp only [parseStates, List.any_cons]
    cases h1 : charToState c with
    | error e =>
      rw [h1] at hgood
      simp only [exceptIsErr] at hgood
      simp only [h1, exceptIsErr]
      rw [← hgood]
      rfl
    | ok st =>
      rw [h1] at hgood
      simp only [exceptIsErr] at hgood
      cases h2 : parseStates cs with
      | error e =>
        rw [h2] at ih
        simp only [exceptIsErr] at ih
        simp only [h1, h2, exceptIsErr]
        rw [← hgood, ← ih]
        rfl
      | ok sts =>
        rw [h2] at ih
        simp only [exceptIsErr] at ih
        simp only [h1, h2, exceptIsErr]
        rw [← hgood, ← ih]
        rfl

theorem parseUsize_err (cs : List Char) :
    exceptIsErr (parseUsize cs) = !validUsize cs := by
  unfold parseUsize
  split <;> simp_all [exceptIsErr]

theorem parseGroupsGo_err (ts : List (List Char)) :
    exceptIsErr (parseGroupsGo ts) = ts.any (fun t => !validUsize (rustTrim t)) := by
  induction ts with
  | nil => rfl
  | cons t ts ih =>
    have hu := parseUsize_err (rustTrim t)
    simp only [parseGroupsGo, List.any_cons]
    cases h1 : parseUsize (rustTrim t) with
    | error e =>
      rw [h1] at hu
      simp only [exceptIsErr] at hu
      simp only [h1, exceptIsErr]
      rw [← hu]
      rfl
    | ok v =>
      rw [h1] at hu
      simp only [exceptIsErr] at hu
      cases h2 : parseGroupsGo ts with
      | error e =>
        rw [h2] at ih
        simp only [exceptIsErr] at ih
        simp only [h1, h2, exceptIsErr]
        rw [← hu, ← ih]
        rfl
      | ok vs =>
        rw [h2] at ih
        simp only [exceptIsErr] at ih
        simp only [h1, h2, exceptIsErr]
        rw [← hu, ← ih]
        rfl

theorem parseGroups_err (cs : List Char) :
    exceptIsErr (parseGroups cs) = (splitComma cs).any (fun t => !validUsize (rustTrim t)) := by
  have hgo := parseGroupsGo_err (splitComma cs)
  unfold parseGroups
  cases h1 : parseGroupsGo (splitComma cs) with
  | error e =>
    rw [h1] at hgo
    simp only [exceptIsErr] at hgo
    simp only [h1, exceptIsErr]
    exact hgo
  | ok vs =>
    rw [h1] at hgo
    simp only [exceptIsErr] at hgo
    simp only [h1, exceptIsErr]
    exact hgo

/-- C3 (amended): parsing fails exactly when the line lacks two
whitespace-separated fields, a state character is outside the three-symbol
alphabet, or a run-length token is rejected by `usize` parsing (which
accepts any non-negative integer below `2 ^ 64`, including `0`, with an
optional leading `'+'`). -/
theorem c3_parse_error_iff (s : String) :
    exceptIsErr (rowFromStr s) = c3AmendedCond s := by
  unfold rowFromStr rowFromChars c3AmendedCond
  cases hs : splitWs s.data with
  | nil => simp only [hs]; rfl
  | cons t0 rest =>
    simp only [hs]
    cases rest with
    | nil =>
      cases hp : parseStates t0 with
      | error e => simp [hp, exceptIsErr]
      | ok sts => simp [hp, exceptIsErr]
    | cons t1 more =>
      have h1 := parseStates_err t0
      have h2 := parseGroups_err t1
      cases hp : parseStates t0 with
      | error e =>
        rw [hp] at h1
        simp only [exceptIsErr] at h1
        simp only [hp, exceptIsErr]
        rw [← h1]
        rfl
      | ok sts =>
        rw [hp] at h1
        simp only [exceptIsErr] at h1
        cases hg : parseGroups t1 with
        | error e =>
          rw [hg] at h2
          simp only [exceptIsErr] at h2
          simp only [hp, hg, exceptIsErr]
          rw [← h1, ← h2]
          rfl
        | ok gs =>
          rw [hg] at h2
          simp only [exceptIsErr] at h2
          simp only [hp, hg, exceptIsErr]
          rw [← h1, ← h2]
          rfl

theorem c3_witness : exceptIsErr (rowFromStr exC3) = c3AmendedCond exC3 :=
  c3_parse_error_iff exC3

/-- C3 counterexample: on the line `". 0"` the claimed failure condition
holds (the token `0` is not a positive integer), yet parsing succeeds. -/
theorem c3_stated_cex :
    c3StatedCond exC3 = true ∧ exceptIsErr (rowFromStr exC3) = false := by
  constructor
  · rfl
  · rfl

/-- C1: the code disagrees with the specified count. On cells `#` with
groups `[2]` there is no valid resolution (the only resolution has run
lengths `[1]`), yet `arrangements` returns 1: the final run is allowed to
end short at the end of the cells. -/
theorem c1_code_vs_spec :
    Row.arrangements ⟨[State.damaged], [2], none⟩ = 1
      ∧ specCount [State.damaged] [2] = 0 := by
  constructor
  · show arrangementsAux [State.damaged] [2] none = 1
    rw [arrangementsAux_eq_dp]
    rfl
  · rfl

/-- C2: a fully fixed resolution whose final filled run (length 2) is
shorter than its group (3) is nevertheless counted as 1 by the code: the
terminal state `Some 1` is accepted because only emptiness of the
remaining groups is checked. -/
theorem c2_terminal_state :
    runLengths [State.damaged, State.damaged] = [2]
      ∧ Row.arrangements ⟨[State.damaged, State.damaged], [3], none⟩ = 1 := by
  constructor
  · rfl
  · show arrangementsAux [State.damaged, State.damaged] [3] none = 1
    rw [arrangementsAux_eq_dp]
    rfl

/-- C7: the Row `#?` with groups `[3]` is unsatisfiable (no resolution
has run lengths `[3]`), yet `arrangements` returns 1 rather than 0. -/
theorem c7_unsatisfiable_value :
    specCount [State.damaged, State.unknown] [3] = 0
      ∧ Row.arrangements ⟨[State.damaged, State.unknown], [3], none⟩ = 1 := by
  constructor
  · rfl
  · show arrangementsAux [State.damaged, State.unknown] [3] none = 1
    rw [arrangementsAux_eq_dp]
    rfl

theorem one_le_invAux : ∀ (s : List State) (g : List Nat) (a : Option Nat), 1 ≤ invAux s g a := by
  intro s
  induction s with
  | nil =>
    intro g a
    simp [invAux]
  | cons c rest ih =>
    intro g a
    cases c with
    | operational =>
      cases a with
      | none =>
        simp only [invAux]
        exact ih g none
      | some k =>
        simp only [invAux]
        split
        · exact ih g none
        · exact Nat.le_refl 1
    | damaged =>
      cases a with
      | none =>
        cases g with
        | nil => simp [invAux]
        | cons h t =>
          simp only [invAux]
          split
          · exact Nat.le_refl 1
          · exact ih t _
      | some k =>
        simp only [invAux]
        split
        · exact Nat.le_refl 1
        · exact ih g _
    | unknown =>
      cases a with
      | some k =>
        simp only [invAux]
        split
        · exact ih g none
        · exact ih g _
      | none =>
        simp only [invAux]
        omega

theorem inv_rec (n : Nat) (gs : List Nat) :
    invAux (List.replicate (n + 2) State.unknown) (1 :: gs) none
      = 1 + invAux (List.replicate (n + 1) State.unknown) (1 :: gs) none
          + invAux (List.replicate n State.unknown) gs none := by
  have hrep : List.replicate (n + 2) State.unknown
      = State.unknown :: List.replicate (n + 1) State.unknown :=
    List.replicate_succ State.unknown (n + 1)
  rw [hrep]
  have hbr : invAux (State.unknown :: List.replicate (n + 1) State.unknown) (1 :: gs) none
      = 1 + invAux (State.operational :: List.replicate (n + 1) State.unknown) (1 :: gs) none
          + invAux (State.damaged :: List.replicate (n + 1) State.unknown) (1 :: gs) none := by
    simp [invAux]
  have hop : invAux (State.operational :: List.replicate (n + 1) State.unknown) (1 :: gs) none
      = invAux (List.replicate (n + 1) State.unknown) (1 :: gs) none := by
    simp [invAux]
  have hdmg : invAux (State.damaged :: List.replicate (n + 1) State.unknown) (1 :: gs) none
      = invAux (List.replicate (n + 1) State.unknown) gs (some 0) := by
    simp [invAux]
  have hforced : invAux (List.replicate (n + 1) State.unknown) gs (some 0)
      = invAux (List.replicate n State.unknown) gs none := by
    rw [List.replicate_succ]
    simp [invAux]
  rw [hbr, hop, hdmg, hforced]

theorem inv_growth : ∀ (m n : Nat), 3 * m ≤ n →
    2 ^ m ≤ invAux (List.replicate n State.unknown) (List.replicate m 1) none := by
  intro m
  induction m with
  | zero =>
    intro n _
    simpa using one_le_invAux (List.replicate n State.unknown) [] none
  | succ m ih =>
    intro n hn
    obtain ⟨k, rfl⟩ : ∃ k, n = k + 3 := ⟨n - 3, by omega⟩
    have hrep : List.replicate (m + 1) (1 : Nat) = 1 :: List.replicate m 1 :=
      List.replicate_succ 1 m
    have h1 : invAux (List.replicate (k + 3) State.unknown) (List.replicate (m + 1) 1) none
        = 1 + invAux (List.replicate (k + 2) State.unknown) (List.replicate (m + 1) 1) none
            + invAux (List.replicate (k + 1) State.unknown) (List.replicate m 1) none := by
      rw [hrep]
      exact inv_rec (k + 1) (List.replicate m 1)
    have h2 : invAux (List.replicate (k + 2) State.unknown) (List.replicate (m + 1) 1) none
        = 1 + invAux (List.replicate (k + 1) State.unknown) (List.replicate (m + 1) 1) none
            + invAux (List.replicate k State.unknown) (List.replicate m 1) none := by
      rw [hrep]
      exact inv_rec k (List.replicate m 1)
    have g1 := ih (k + 1) (by omega)
    have g2 := ih k (by omega)
    have hpow : 2 ^ (m + 1) = 2 ^ m + 2 ^ m := by
      rw [pow_succ]
      omega
    omega

theorem maxG_replicate_le_one (m : Nat) : maxG (List.replicate m 1) ≤ 1 := by
  induction m with
  | zero => simp [maxG]
  | succ m ih =>
    rw [List.replicate_succ, maxG_cons]
    exact Nat.max_le.mpr ⟨Nat.le_refl 1, ih⟩

/-- C10 (amended): the counter does not memoize; its recursive invocation
count is exponential: a row of `n ≥ 3 m` Unknown cells with `m` groups of
length 1 causes at least `2 ^ m` invocations of `arrangements`. -/
theorem c10_exponential_growth (m n : Nat) (h : 3 * m ≤ n) :
    2 ^ m ≤ invAux (List.replicate n State.unknown) (List.replicate m 1) none :=
  inv_growth m n h

theorem c10_witness :
    3 * 1 ≤ 3 ∧ 2 ^ 1 ≤ invAux (List.replicate 3 State.unknown) (List.replicate 1 1) none :=
  ⟨by decide, c10_exponential_growth 1 3 (by decide)⟩

/-- C10 counterexample: the invocation count of the counter is not
bounded by any constant multiple of
`(N + 1) * (M + 1) * (maxGroupLen + 1)`, refuting the claimed
`O(N * M * maxGroupLen)` total work of a memoized computation. -/
theorem c10_not_polynomial :
    ¬ ∃ c : Nat, ∀ (s : List State) (g : List Nat),
        invAux s g none ≤ c * (s.length + 1) * (g.length + 1) * (maxG g + 1) := by
  rintro ⟨c, hc⟩
  obtain ⟨u, hu⟩ : ∃ u, u = 64 + 4 * c := ⟨_, rfl⟩
  obtain ⟨t, ht⟩ : ∃ t, t = 4 * u := ⟨_, rfl⟩
  have hineq := hc (List.replicate (3 * t) State.unknown) (List.replicate t 1)
  rw [List.length_replicate, List.length_replicate] at hineq
  have hgrow : 2 ^ t ≤ invAux (List.replicate (3 * t) State.unknown) (List.replicate t 1) none :=
    inv_growth t (3 * t) (Nat.le_refl _)
  have hmax : maxG (List.replicate t 1) + 1 ≤ 2 := by
    have := maxG_replicate_le_one t
    omega
  have a1 : c * (3 * t + 1) ≤ c * (4 * t) :=
    Nat.mul_le_mul_left c (by omega)
  have a2 : c * (3 * t + 1) * (t + 1) ≤ c * (4 * t) * (2 * t) :=
    Nat.mul_le_mul a1 (by omega)
  have a3 : c * (3 * t + 1) * (t + 1) * (maxG (List.replicate t 1) + 1)
      ≤ c * (4 * t) * (2 * t) * 2 :=
    Nat.mul_le_mul a2 hmax
  have a4 : c * (4 * t) * (2 * t) * 2 = 16 * c * (t * t) := by ring
  have a5 : 16 * c * (t * t) ≤ t * (t * t) :=
    Nat.mul_le_mul_right (t * t) (by omega)
  have a6 : t * (t * t) = 64 * u ^ 3 := by
    rw [ht]
    ring
  have a7 : 64 * u ^ 3 ≤ u * u ^ 3 :=
    Nat.mul_le_mul_right (u ^ 3) (by omega)
  have a8 : u * u ^ 3 = u ^ 4 := by ring
  have a9 : u ^ 4 < (2 ^ u) ^ 4 :=
    Nat.pow_lt_pow_left (Nat.lt_two_pow u) (by omega)
  have a10 : ((2 : Nat) ^ u) ^ 4 = 2 ^ t := by
    rw [← Nat.pow_mul, Nat.mul_comm, ht]
  have : (2 : Nat) ^ t < 2 ^ t := by
    calc 2 ^ t ≤ invAux (List.replicate (3 * t) State.unknown) (List.replicate t 1) none := hgrow
      _ ≤ c * (3 * t + 1) * (t + 1) * (maxG (List.replicate t 1) + 1) := hineq
      _ ≤ c * (4 * t) * (2 * t) * 2 := a3
      _ = 16 * c * (t * t) := a4
      _ ≤ t * (t * t) := a5
      _ = 64 * u ^ 3 := a6
      _ ≤ u * u ^ 3 := a7
      _ = u ^ 4 := a8
      _ < (2 ^ u) ^ 4 := a9
      _ = 2 ^ t := a10
  exact absurd this (Nat.lt_irrefl _)
